import Mathlib

/-
Shallow embedding of the listening-party playback-state logic of
humble-ledger (src/lp_info.rs, canonical revision, and src/lp.rs, an
earlier revision of the same module).

Modelling conventions:
* `chrono::DateTime<Utc>` timestamps and `chrono::Duration` spans are
  modelled at whole-second granularity as `Int` (chrono durations are
  signed; all claims are phrased in seconds).  `Duration::num_seconds`
  is therefore the identity on this model.
* `Utc::now()` is an ambient input; functions that read it in the source
  take `now` as an explicit argument here.
* `eprintln!` logging is a side effect outside the model; the control
  flow around it is embedded faithfully.
-/

namespace HumbleLedger

/-- `TrackInfo` from src/lp_info.rs (identical in src/lp.rs): ordinal
position, display name, optional external URI, playback duration. -/
structure TrackInfo where
  number : Nat
  name : String
  uri : Option String
  duration : Int
deriving DecidableEq

/-- `PlaylistInfo` from src/lp_info.rs: album or playlist metadata. -/
inductive PlaylistInfo where
  | AlbumInfo (id : String) (artist : String) (name : String) (uri : Option String)
  | MkPlaylistInfo (id : String) (name : String) (uri : Option String)
deriving DecidableEq

/-- `LPInfo` from src/lp_info.rs: stored information about a listening
party in a channel.  `started` is the optional start timestamp. -/
structure LPInfo where
  playlist : PlaylistInfo
  tracks : List TrackInfo
  started : Option Int
deriving DecidableEq

/-- `PlayState` from src/lp_info.rs: state of the listening party.
The source holds a reference `&TrackInfo`; the model holds the value. -/
inductive PlayState where
  | NotStarted : PlayState
  | Finished (elapsedSinceEnd : Int) : PlayState
  | Playing (track : TrackInfo) (position : Int) : PlayState
deriving DecidableEq

/-- The `for track in self.tracks.iter()` loop of `LPInfo::now_playing`
(src/lp_info.rs lines 213-226): subtract each duration from `remain`
until a track with `track.duration > remain` is found; if the walk
exhausts all tracks the party is `Finished remain`. -/
def now_playing_loop : List TrackInfo → Int → PlayState
  | [], remain => .Finished remain
  | track :: rest, remain =>
    if track.duration > remain then
      .Playing track remain
    else
      now_playing_loop rest (remain - track.duration)

/-- `LPInfo::now_playing` (src/lp_info.rs lines 197-227): calculate which
track is playing `offset` seconds from `now`.  The source reads
`Utc::now()`; the model takes `now` explicitly. -/
def now_playing (lp : LPInfo) (now : Int) (offset : Int) : PlayState :=
  match lp.started with
  | none => .NotStarted
  | some started =>
    if started > now then
      -- source logs "Started timestamp in the future!" here
      .NotStarted
    else
      now_playing_loop lp.tracks (now - started + offset)

/-- Total runtime of a track sequence:
`self.tracks.iter().map(|t| t.duration).sum()` (src/lp_info.rs line 246). -/
def total_duration (tracks : List TrackInfo) : Int :=
  (tracks.map TrackInfo.duration).sum

example :
    now_playing
      ⟨.MkPlaylistInfo "p" "pl" none,
       [⟨1, "a", none, 180⟩, ⟨2, "b", none, 200⟩], some 0⟩ 190 0 =
      .Playing ⟨2, "b", none, 200⟩ 10 := by decide

example :
    now_playing
      ⟨.MkPlaylistInfo "p" "pl" none,
       [⟨1, "a", none, 180⟩, ⟨2, "b", none, 200⟩], some 0⟩ 400 0 =
      .Finished 20 := by decide

/-- A sequence of non-negative durations has a non-negative total. -/
lemma total_duration_nonneg (tracks : List TrackInfo)
    (hdur : ∀ t ∈ tracks, 0 ≤ t.duration) : 0 ≤ total_duration tracks := by
  induction tracks with
  | nil => simp [total_duration]
  | cons t rest ih =>
    have h0 := hdur t (List.mem_cons_self t rest)
    have hrest := ih fun u hu => hdur u (List.mem_cons_of_mem t hu)
    simp only [total_duration, List.map_cons, List.sum_cons]
    exact add_nonneg h0 hrest

/-- The subtraction loop never produces `NotStarted`. -/
lemma now_playing_loop_ne_notStarted (tracks : List TrackInfo) (remain : Int) :
    now_playing_loop tracks remain ≠ .NotStarted := by
  induction tracks generalizing remain with
  | nil => simp [now_playing_loop]
  | cons t rest ih =>
    simp only [now_playing_loop]
    split
    · simp
    · exact ih _

/-- If `remain` lands inside track `k` (all durations non-negative), the
loop stops at track `k` with the residual offset as position. -/
lemma now_playing_loop_lands (tracks : List TrackInfo) (k : Nat) (eps : Int)
    (hdur : ∀ t ∈ tracks, 0 ≤ t.duration) (hk : k < tracks.length)
    (heps0 : 0 ≤ eps) (hepsk : eps < (tracks.get ⟨k, hk⟩).duration) :
    now_playing_loop tracks (total_duration (tracks.take k) + eps) =
      .Playing (tracks.get ⟨k, hk⟩) eps := by
  induction tracks generalizing k with
  | nil => exact absurd hk (Nat.not_lt_zero k)
  | cons t rest ih =>
    cases k with
    | zero =>
      simp only [List.take_zero, total_duration, List.map_nil, List.sum_nil,
        zero_add, now_playing_loop]
      simp only [List.get] at hepsk
      simp [hepsk]
    | succ j =>
      have hj : j < rest.length := Nat.lt_of_succ_lt_succ hk
      have hdur_rest : ∀ u ∈ rest, 0 ≤ u.duration :=
        fun u hu => hdur u (List.mem_cons_of_mem t hu)
      have htake : 0 ≤ total_duration (rest.take j) :=
        total_duration_nonneg _ fun u hu => hdur_rest u (List.mem_of_mem_take hu)
      have hepsk' : eps < (rest.get ⟨j, hj⟩).duration := hepsk
      have hsum : total_duration ((t :: rest).take (j + 1)) + eps =
          t.duration + (total_duration (rest.take j) + eps) := by
        simp only [List.take_succ_cons, total_duration, List.map_cons,
          List.sum_cons]
        ring
      rw [hsum]
      simp only [now_playing_loop]
      have hge : ¬ t.duration > t.duration + (total_duration (rest.take j) + eps) := by
        have : 0 ≤ total_duration (rest.take j) + eps := add_nonneg htake heps0
        omega
      rw [if_neg hge]
      have hrw : t.duration + (total_duration (rest.take j) + eps) - t.duration =
          total_duration (rest.take j) + eps := by ring
      rw [hrw]
      exact ih j hdur_rest hj hepsk'

/-- If `remain` equals the total duration plus a non-negative surplus,
the loop exhausts all tracks and reports `Finished` of the surplus. -/
lemma now_playing_loop_past_end (tracks : List TrackInfo) (delta : Int)
    (hdur : ∀ t ∈ tracks, 0 ≤ t.duration) (hdelta : 0 ≤ delta) :
    now_playing_loop tracks (total_duration tracks + delta) = .Finished delta := by
  induction tracks with
  | nil => simp [now_playing_loop, total_duration]
  | cons t rest ih =>
    have h0 := hdur t (List.mem_cons_self t rest)
    have hdur_rest : ∀ u ∈ rest, 0 ≤ u.duration :=
      fun u hu => hdur u (List.mem_cons_of_mem t hu)
    have hrest : 0 ≤ total_duration rest := total_duration_nonneg _ hdur_rest
    have hsum : total_duration (t :: rest) + delta =
        t.duration + (total_duration rest + delta) := by
      simp only [total_duration, List.map_cons, List.sum_cons]; ring
    rw [hsum]
    simp only [now_playing_loop]
    have hge : ¬ t.duration > t.duration + (total_duration rest + delta) := by omega
    rw [if_neg hge]
    have hrw : t.duration + (total_duration rest + delta) - t.duration =
        total_duration rest + delta := by ring
    rw [hrw]
    exact ih hdur_rest

/-- When the loop reports `Playing`, the position is within the bounds of
the reported track (given a non-negative starting `remain`). -/
lemma now_playing_loop_playing_bounds (tracks : List TrackInfo) (remain : Int)
    (track : TrackInfo) (pos : Int)
    (hdur : ∀ t ∈ tracks, 0 ≤ t.duration) (hremain : 0 ≤ remain)
    (h : now_playing_loop tracks remain = .Playing track pos) :
    0 ≤ pos ∧ pos < track.duration := by
  induction tracks generalizing remain with
  | nil => simp [now_playing_loop] at h
  | cons t rest ih =>
    have h0 := hdur t (List.mem_cons_self t rest)
    have hdur_rest : ∀ u ∈ rest, 0 ≤ u.duration :=
      fun u hu => hdur u (List.mem_cons_of_mem t hu)
    simp only [now_playing_loop] at h
    by_cases hgt : t.duration > remain
    · rw [if_pos hgt] at h
      cases h
      exact ⟨hremain, hgt⟩
    · rw [if_neg hgt] at h
      have : 0 ≤ remain - t.duration := by omega
      exact ih _ hdur_rest this h

/-- C1: for a started session queried at a shifted elapsed time that lands
inside track `k` — that is, `(now - t0) + offset` equals the sum of the
first `k` durations plus `eps` with `0 ≤ eps` strictly below the duration
of track `k` — `now_playing` reports `Playing` on track `k` with position
`eps`, provided all durations are non-negative and `t0 ≤ now`. -/
theorem now_playing_inside_track (pl : PlaylistInfo) (tracks : List TrackInfo)
    (t0 now offset eps : Int) (k : Nat)
    (hdur : ∀ t ∈ tracks, 0 ≤ t.duration) (hk : k < tracks.length)
    (heps0 : 0 ≤ eps) (hepsk : eps < (tracks.get ⟨k, hk⟩).duration)
    (ht0 : t0 ≤ now)
    (helapsed : now - t0 + offset = total_duration (tracks.take k) + eps) :
    now_playing ⟨pl, tracks, some t0⟩ now offset =
      .Playing (tracks.get ⟨k, hk⟩) eps := by
  simp only [now_playing]
  rw [if_neg (by omega : ¬ t0 > now), helapsed]
  exact now_playing_loop_lands tracks k eps hdur hk heps0 hepsk

/-- C1 witness: durations [180s, 200s], offset 0, now - t0 = 190s yields
`Playing` on the second track (0-indexed track 1) at position 10s. -/
theorem now_playing_inside_track_witness :
    now_playing
      ⟨.MkPlaylistInfo "p" "pl" none,
       [⟨1, "a", none, 180⟩, ⟨2, "b", none, 200⟩], some 0⟩ 190 0 =
      .Playing ⟨2, "b", none, 200⟩ 10 :=
  now_playing_inside_track (.MkPlaylistInfo "p" "pl" none)
    [⟨1, "a", none, 180⟩, ⟨2, "b", none, 200⟩] 0 190 0 10 1
    (by decide) (by decide) (by decide) (by decide) (by decide) (by decide)

/-- C2: a started session whose shifted elapsed time exceeds the total
duration by `delta > 0` is reported `Finished delta`; in particular a
session with zero tracks and offset 0 queried at `now > t0` is
`Finished (now - t0)`. -/
theorem now_playing_past_end :
    (∀ (pl : PlaylistInfo) (tracks : List TrackInfo) (t0 now offset delta : Int),
      (∀ t ∈ tracks, 0 ≤ t.duration) → t0 ≤ now → 0 < delta →
      now - t0 + offset = total_duration tracks + delta →
      now_playing ⟨pl, tracks, some t0⟩ now offset = .Finished delta) ∧
    (∀ (pl : PlaylistInfo) (t0 now : Int), t0 < now →
      now_playing ⟨pl, [], some t0⟩ now 0 = .Finished (now - t0)) := by
  constructor
  · intro pl tracks t0 now offset delta hdur ht0 hdelta helapsed
    simp only [now_playing]
    rw [if_neg (by omega : ¬ t0 > now), helapsed]
    exact now_playing_loop_past_end tracks delta hdur (le_of_lt hdelta)
  · intro pl t0 now ht0
    simp only [now_playing]
    rw [if_neg (by omega : ¬ t0 > now)]
    simp [now_playing_loop]

/-- C2 witness: durations [180s, 200s], now - t0 = 400s yields
`Finished 20`; and the zero-track session at now - t0 = 7 yields
`Finished 7`. -/
theorem now_playing_past_end_witness :
    now_playing
      ⟨.MkPlaylistInfo "p" "pl" none,
       [⟨1, "a", none, 180⟩, ⟨2, "b", none, 200⟩], some 0⟩ 400 0 =
      .Finished 20 ∧
    now_playing ⟨.MkPlaylistInfo "p" "pl" none, [], some 0⟩ 7 0 =
      .Finished 7 :=
  ⟨now_playing_past_end.1 (.MkPlaylistInfo "p" "pl" none)
      [⟨1, "a", none, 180⟩, ⟨2, "b", none, 200⟩] 0 400 0 20
      (by decide) (by decide) (by decide) (by decide),
   now_playing_past_end.2 (.MkPlaylistInfo "p" "pl" none) 0 7 (by decide)⟩

/-- C3: `now_playing` returns `NotStarted` exactly when `started` is
absent or lies strictly after `now`; the offset plays no role in this
classification.  The future-timestamp case is a defensive clamp (the
source logs it and returns `NotStarted` instead of failing). -/
theorem now_playing_notStarted_iff (lp : LPInfo) (now offset : Int) :
    now_playing lp now offset = .NotStarted ↔
      (lp.started = none ∨ ∃ t0, lp.started = some t0 ∧ now < t0) := by
  cases hs : lp.started with
  | none => simp [now_playing, hs]
  | some t0 =>
    simp only [now_playing, hs]
    by_cases hgt : t0 > now
    · simp only [if_pos hgt]
      constructor
      · intro _; exact Or.inr ⟨t0, rfl, hgt⟩
      · intro _; trivial
    · simp only [if_neg hgt]
      constructor
      · intro h; exact absurd h (now_playing_loop_ne_notStarted _ _)
      · rintro (h | ⟨t1, ht1, hlt⟩)
        · exact absurd h (by simp)
        · injection ht1 with he
          exfalso
          omega

/-- C4: whenever a started session with non-negative durations, a
non-negative offset and `t0 ≤ now` is reported `Playing`, the position
lies in `[0, track.duration)`; hence the duration of the playing track is
strictly positive, so a zero-duration track is never reported. -/
theorem now_playing_position_bounds (pl : PlaylistInfo)
    (tracks : List TrackInfo) (t0 now offset : Int)
    (track : TrackInfo) (pos : Int)
    (hdur : ∀ t ∈ tracks, 0 ≤ t.duration) (ht0 : t0 ≤ now) (hoff : 0 ≤ offset)
    (h : now_playing ⟨pl, tracks, some t0⟩ now offset = .Playing track pos) :
    0 ≤ pos ∧ pos < track.duration ∧ 0 < track.duration := by
  simp only [now_playing] at h
  rw [if_neg (by omega : ¬ t0 > now)] at h
  have hbounds := now_playing_loop_playing_bounds tracks (now - t0 + offset)
    track pos hdur (by omega) h
  exact ⟨hbounds.1, hbounds.2, lt_of_le_of_lt hbounds.1 hbounds.2⟩

/-- C4 witness: in the [180s, 200s] session at elapsed 190s the reported
position 10 satisfies the bounds, applying the bounds theorem at that
concrete session. -/
theorem now_playing_position_bounds_witness :
    0 ≤ (10 : Int) ∧ (10 : Int) < 200 ∧ (0 : Int) < 200 :=
  now_playing_position_bounds (.MkPlaylistInfo "p" "pl" none)
    [⟨1, "a", none, 180⟩, ⟨2, "b", none, 200⟩] 0 190 0
    ⟨2, "b", none, 200⟩ 10 (by decide) (by decide) (by decide) (by decide)

/-- C9: at the exact end of the playlist — shifted elapsed time equal to
the total duration — the session is reported `Finished 0`, never
`Playing` on the last track at a position equal to its duration. -/
theorem now_playing_exact_end (pl : PlaylistInfo) (tracks : List TrackInfo)
    (t0 now offset : Int)
    (hdur : ∀ t ∈ tracks, 0 ≤ t.duration) (ht0 : t0 ≤ now)
    (helapsed : now - t0 + offset = total_duration tracks) :
    now_playing ⟨pl, tracks, some t0⟩ now offset = .Finished 0 := by
  simp only [now_playing]
  rw [if_neg (by omega : ¬ t0 > now)]
  have h : now - t0 + offset = total_duration tracks + 0 := by omega
  rw [h]
  exact now_playing_loop_past_end tracks 0 hdur le_rfl

/-- C9 witness: the [180s, 200s] session at elapsed exactly 380s is
`Finished 0`. -/
theorem now_playing_exact_end_witness :
    now_playing
      ⟨.MkPlaylistInfo "p" "pl" none,
       [⟨1, "a", none, 180⟩, ⟨2, "b", none, 200⟩], some 0⟩ 380 0 =
      .Finished 0 :=
  now_playing_exact_end (.MkPlaylistInfo "p" "pl" none)
    [⟨1, "a", none, 180⟩, ⟨2, "b", none, 200⟩] 0 380 0
    (by decide) (by decide) (by decide)

/-- C10: with a non-empty track sequence of non-negative durations,
`t0 ≤ now`, and an offset negative enough that `(now - t0) + offset < 0`,
`now_playing` reports `Playing` on the first track with the strictly
negative position `(now - t0) + offset` — the `NotStarted` classification
looks only at `started` versus `now` and ignores the offset. -/
theorem now_playing_negative_shift (pl : PlaylistInfo) (t : TrackInfo)
    (rest : List TrackInfo) (t0 now offset : Int)
    (hdur : ∀ u ∈ t :: rest, 0 ≤ u.duration) (ht0 : t0 ≤ now)
    (hneg : now - t0 + offset < 0) :
    now_playing ⟨pl, t :: rest, some t0⟩ now offset =
      .Playing t (now - t0 + offset) ∧ now - t0 + offset < 0 := by
  have h0 := hdur t (List.mem_cons_self t rest)
  refine ⟨?_, hneg⟩
  simp only [now_playing]
  rw [if_neg (by omega : ¬ t0 > now)]
  simp only [now_playing_loop]
  rw [if_pos (by omega : t.duration > now - t0 + offset)]

/-- C10 witness: a one-track session with `now = t0` and offset -15
reports `Playing` on the first track at position -15. -/
theorem now_playing_negative_shift_witness :
    now_playing
      ⟨.MkPlaylistInfo "p" "pl" none, [⟨1, "a", none, 180⟩], some 5⟩ 5 (-15) =
      .Playing ⟨1, "a", none, 180⟩ (-15) ∧ (5 : Int) - 5 + (-15) < 0 := by
  have h := now_playing_negative_shift (.MkPlaylistInfo "p" "pl" none)
    ⟨1, "a", none, 180⟩ [] 5 5 (-15) (by decide) (by decide) (by decide)
  simpa using h

/-- C8: the resolver is a pure, deterministic function of the session
contents, the query time and the offset.  In this embedding
`now_playing` is a total function, so it cannot mutate its argument and
two calls on equal arguments are definitionally equal; the theorem
records the stronger fact that the result depends only on the
`tracks` and `started` fields of the session (sessions differing in playlist metadata
resolve identically), together with determinism on equal inputs. -/
theorem now_playing_pure (pl1 pl2 : PlaylistInfo) (tracks : List TrackInfo)
    (started : Option Int) (now offset : Int) :
    now_playing ⟨pl1, tracks, started⟩ now offset =
        now_playing ⟨pl2, tracks, started⟩ now offset ∧
      now_playing ⟨pl1, tracks, started⟩ now offset =
        now_playing ⟨pl1, tracks, started⟩ now offset :=
  ⟨rfl, rfl⟩

/-- Rust format specifier `{:0>2}`: pad the rendered value on the left
with the fill character '0' up to a minimum width of 2. -/
def pad2 (s : String) : String :=
  if s.length < 2 then String.mk (List.replicate (2 - s.length) '0') ++ s else s

/-- `display_duration` (src/lp_info.rs lines 338-348, identical in
src/lp.rs lines 264-274): format a duration as [hh:]mm:ss.  Rust `/` and
`%` on i64 truncate toward zero, hence `Int.tdiv` / `Int.tmod`; the
`format!` calls are modelled by string concatenation with `pad2` for the
`{:0>2}` specifiers. -/
def display_duration (duration : Int) : String :=
  let allsecs := duration
  let seconds := Int.tmod allsecs 60
  let minutes := Int.tmod (Int.tdiv allsecs 60) 60
  let hours := Int.tdiv allsecs 3600
  if hours > 0 then
    toString hours ++ ":" ++ pad2 (toString minutes) ++ ":" ++ pad2 (toString seconds)
  else
    pad2 (toString minutes) ++ ":" ++ pad2 (toString seconds)

example : display_duration 190 = "03:10" := by decide
example : display_duration 3661 = "1:01:01" := by decide
example : display_duration 0 = "00:00" := by decide

/-- C7: for a non-negative duration of `n` whole seconds, the rendering
omits the hour component exactly when the whole-hour count `n / 3600` is
zero, in which case it is `mm:ss` with both components zero-padded to two
digits; otherwise it is `h:mm:ss` with the unpadded hour count followed by
zero-padded minutes and seconds, minutes and seconds being the remainders
`n / 60 % 60` and `n % 60`. -/
theorem display_duration_spec (n : Nat) :
    (n / 3600 = 0 →
      display_duration (n : Int) =
        pad2 (Nat.repr (n / 60 % 60)) ++ ":" ++ pad2 (Nat.repr (n % 60))) ∧
    (n / 3600 ≠ 0 →
      display_duration (n : Int) =
        Nat.repr (n / 3600) ++ ":" ++ pad2 (Nat.repr (n / 60 % 60)) ++ ":" ++
          pad2 (Nat.repr (n % 60))) := by
  have hsec : Int.tmod (n : Int) 60 = ((n % 60 : Nat) : Int) := by
    rw [Int.ofNat_tmod]; rfl
  have hmin : Int.tmod (Int.tdiv (n : Int) 60) 60 = ((n / 60 % 60 : Nat) : Int) := by
    rw [Int.ofNat_tmod, Int.ofNat_tdiv]; rfl
  have hhour : Int.tdiv (n : Int) 3600 = ((n / 3600 : Nat) : Int) := by
    rw [Int.ofNat_tdiv]; rfl
  have hts : ∀ m : Nat, toString ((m : Nat) : Int) = Nat.repr m := fun m => rfl
  constructor
  · intro h
    simp only [display_duration, hsec, hmin, hhour, h]
    rw [if_neg (by simp)]
    rw [hts, hts]
  · intro h
    have hpos : (0 : Int) < ((n / 3600 : Nat) : Int) := by
      exact_mod_cast Nat.pos_of_ne_zero h
    simp only [display_duration, hsec, hmin, hhour]
    rw [if_pos hpos]
    rw [hts, hts, hts]

/-- C7 witness: applying the formatting theorem at 190s (mm:ss branch)
and 3661s (h:mm:ss branch). -/
theorem display_duration_spec_witness :
    display_duration 190 = "03:10" ∧ display_duration 3661 = "1:01:01" :=
  ⟨((display_duration_spec 190).1 (by decide)).trans (by decide),
   ((display_duration_spec 3661).2 (by decide)).trans (by decide)⟩

/-- Data the constructors read from each fetched Spotify track: display
name, duration, and `external_urls.get("spotify")`. -/
structure RawTrack where
  name : String
  duration : Int
  spotify_url : Option String
deriving DecidableEq

/-- The `.enumerate().map_ok(...)` pipeline of
`LPInfo::from_spotify_album_id` (src/lp_info.rs lines 79-90): track at
enumeration index `count` gets `number := count + 1`. -/
def album_tracks_from (count : Nat) : List RawTrack → List TrackInfo
  | [] => []
  | track :: rest =>
    { number := count + 1, name := track.name, uri := track.spotify_url,
      duration := track.duration } :: album_tracks_from (count + 1) rest

/-- `LPInfo::from_spotify_album_id` (src/lp_info.rs lines 62-102),
restricted to its pure part: the album metadata and the fetched track
stream are inputs; the session starts with `started = None`. -/
def from_spotify_album_id (id artist name : String) (uri : Option String)
    (raw : List RawTrack) : LPInfo :=
  { playlist := .AlbumInfo id artist name uri,
    tracks := album_tracks_from 0 raw,
    started := none }

/-- The `.enumerate().filter_map(...)` pipeline of
`LPInfo::from_spotify_playlist_id` (src/lp_info.rs lines 120-144,
identical in src/lp.rs lines 114-138): items whose `track` is `None` are
dropped, and a kept item at enumeration index `count` (counted over the
raw item list, dropped items included) gets `number := count + 1`. -/
def playlist_tracks_from (count : Nat) : List (Option RawTrack) → List TrackInfo
  | [] => []
  | none :: rest => playlist_tracks_from (count + 1) rest
  | some track :: rest =>
    { number := count + 1, name := track.name, uri := track.spotify_url,
      duration := track.duration } :: playlist_tracks_from (count + 1) rest

/-- `LPInfo::from_spotify_playlist_id` (src/lp_info.rs lines 104-155),
restricted to its pure part. -/
def from_spotify_playlist_id (id name : String) (uri : Option String)
    (items : List (Option RawTrack)) : LPInfo :=
  { playlist := .MkPlaylistInfo id name uri,
    tracks := playlist_tracks_from 0 items,
    started := none }

namespace lp

/-- The `.enumerate().map_ok(...)` pipeline of the earlier revision
`LPInfo::from_spotify_album_id` (src/lp.rs lines 73-84): there the track
at enumeration index `count` gets `number := count`, 0-based. -/
def album_tracks_from (count : Nat) : List RawTrack → List TrackInfo
  | [] => []
  | track :: rest =>
    { number := count, name := track.name, uri := track.spotify_url,
      duration := track.duration } :: lp.album_tracks_from (count + 1) rest

/-- `LPInfo::from_spotify_album_id` of src/lp.rs (lines 55-96),
restricted to its pure part. -/
def from_spotify_album_id (id artist name : String) (uri : Option String)
    (raw : List RawTrack) : LPInfo :=
  { playlist := .AlbumInfo id artist name uri,
    tracks := lp.album_tracks_from 0 raw,
    started := none }

end lp

/-- Track numbers assigned by the lp_info.rs album pipeline starting at
`count`: the element at index `i` carries number `count + i + 1`. -/
lemma album_tracks_from_number (raw : List RawTrack) (count i : Nat)
    (h : i < (album_tracks_from count raw).length) :
    ((album_tracks_from count raw).get ⟨i, h⟩).number = count + i + 1 := by
  induction raw generalizing count i with
  | nil => simp [album_tracks_from] at h
  | cons t rest ih =>
    cases i with
    | zero => rfl
    | succ j =>
      have hj : j < (album_tracks_from (count + 1) rest).length := by
        simpa [album_tracks_from] using h
      calc ((album_tracks_from count (t :: rest)).get ⟨j + 1, h⟩).number
          = ((album_tracks_from (count + 1) rest).get ⟨j, hj⟩).number := rfl
        _ = count + 1 + j + 1 := ih (count + 1) j hj
        _ = count + (j + 1) + 1 := by omega

/-- Track numbers assigned by the lp.rs album pipeline starting at
`count`: the element at index `i` carries number `count + i`, 0-based. -/
lemma lp_album_tracks_from_number (raw : List RawTrack) (count i : Nat)
    (h : i < (lp.album_tracks_from count raw).length) :
    ((lp.album_tracks_from count raw).get ⟨i, h⟩).number = count + i := by
  induction raw generalizing count i with
  | nil => simp [lp.album_tracks_from] at h
  | cons t rest ih =>
    cases i with
    | zero => rfl
    | succ j =>
      have hj : j < (lp.album_tracks_from (count + 1) rest).length := by
        simpa [lp.album_tracks_from] using h
      calc ((lp.album_tracks_from count (t :: rest)).get ⟨j + 1, h⟩).number
          = ((lp.album_tracks_from (count + 1) rest).get ⟨j, hj⟩).number := rfl
        _ = count + 1 + j := ih (count + 1) j hj
        _ = count + (j + 1) := by omega

/-- Track numbers assigned by the playlist pipeline when no item is
filtered out: the element at index `i` carries number `count + i + 1`. -/
lemma playlist_tracks_from_number (items : List (Option RawTrack))
    (hall : ∀ it ∈ items, it.isSome) (count i : Nat)
    (h : i < (playlist_tracks_from count items).length) :
    ((playlist_tracks_from count items).get ⟨i, h⟩).number = count + i + 1 := by
  induction items generalizing count i with
  | nil => simp [playlist_tracks_from] at h
  | cons it rest ih =>
    cases it with
    | none =>
      exact absurd (hall none (List.mem_cons_self _ _)) (by simp)
    | some t =>
      cases i with
      | zero => rfl
      | succ j =>
        have hall_rest : ∀ u ∈ rest, u.isSome :=
          fun u hu => hall u (List.mem_cons_of_mem _ hu)
        have hj : j < (playlist_tracks_from (count + 1) rest).length := by
          simpa [playlist_tracks_from] using h
        calc ((playlist_tracks_from count (some t :: rest)).get ⟨j + 1, h⟩).number
            = ((playlist_tracks_from (count + 1) rest).get ⟨j, hj⟩).number := rfl
          _ = count + 1 + j + 1 := ih hall_rest (count + 1) j hj
          _ = count + (j + 1) + 1 := by omega

/-- C5 counterexample: the album constructor of src/lp.rs assigns
`number := count` (0-based), so the track stored at index 0 of that
session carries number 0, not 1; and the playlist constructor of
src/lp_info.rs numbers by the pre-filter item index, so when the first
fetched item carries no track the track stored at index 0 carries
number 2, not 1. -/
theorem track_numbering_counterexample :
    ((lp.from_spotify_album_id "id" "artist" "album" none
        [⟨"a", 100, none⟩]).tracks.get ⟨0, by decide⟩).number ≠ 0 + 1 ∧
    ((from_spotify_playlist_id "id" "playlist" none
        [none, some ⟨"a", 100, none⟩]).tracks.get ⟨0, by decide⟩).number ≠ 0 + 1 := by
  decide

/-- C5 amended: in the canonical revision (src/lp_info.rs) the album
constructor assigns 1-based ordinals — the track at index `i` has
`number = i + 1` — and the playlist constructor (identical in both
files) does so as well whenever every fetched item carries a track (in
general it numbers by the pre-filter item index plus one); the album
constructor of the earlier revision src/lp.rs instead assigns 0-based
ordinals, `number = i`. -/
theorem track_numbering_amended :
    (∀ (id artist name : String) (uri : Option String) (raw : List RawTrack)
        (i : Nat) (h : i < (from_spotify_album_id id artist name uri raw).tracks.length),
      ((from_spotify_album_id id artist name uri raw).tracks.get ⟨i, h⟩).number = i + 1) ∧
    (∀ (id name : String) (uri : Option String) (items : List (Option RawTrack)),
      (∀ it ∈ items, it.isSome) →
      ∀ (i : Nat) (h : i < (from_spotify_playlist_id id name uri items).tracks.length),
      ((from_spotify_playlist_id id name uri items).tracks.get ⟨i, h⟩).number = i + 1) ∧
    (∀ (id artist name : String) (uri : Option String) (raw : List RawTrack)
        (i : Nat) (h : i < (lp.from_spotify_album_id id artist name uri raw).tracks.length),
      ((lp.from_spotify_album_id id artist name uri raw).tracks.get ⟨i, h⟩).number = i) := by
  refine ⟨?_, ?_, ?_⟩
  · intro id artist name uri raw i h
    have := album_tracks_from_number raw 0 i h
    simpa using this
  · intro id name uri items hall i h
    have := playlist_tracks_from_number items hall 0 i h
    simpa using this
  · intro id artist name uri raw i h
    have := lp_album_tracks_from_number raw 0 i h
    simpa using this

/-- C5 amended witness: one-track album and playlist sessions; the
lp_info.rs constructors yield number 1 at index 0, the lp.rs album
constructor yields number 0. -/
theorem track_numbering_amended_witness :
    ((from_spotify_album_id "i" "a" "n" none
        [⟨"x", 100, none⟩]).tracks.get ⟨0, by decide⟩).number = 0 + 1 ∧
    ((from_spotify_playlist_id "i" "n" none
        [some ⟨"x", 100, none⟩]).tracks.get ⟨0, by decide⟩).number = 0 + 1 ∧
    ((lp.from_spotify_album_id "i" "a" "n" none
        [⟨"x", 100, none⟩]).tracks.get ⟨0, by decide⟩).number = 0 :=
  ⟨track_numbering_amended.1 "i" "a" "n" none [⟨"x", 100, none⟩] 0 (by decide),
   track_numbering_amended.2.1 "i" "n" none [some ⟨"x", 100, none⟩]
     (by decide) 0 (by decide),
   track_numbering_amended.2.2 "i" "a" "n" none [⟨"x", 100, none⟩] 0 (by decide)⟩

/-- `ModLPInfo::start_lp` (src/lp_info.rs lines 533-539, same logic in
`LP::start_lp`, src/lp.rs lines 413-420): on the channel-to-session map,
`entry(*channel).and_modify(|lp_info| lp_info.started = Some(now))` sets
the `started` field of the existing session to `Some(now)` and inserts nothing when
the channel has no session.  The map is modelled as a function from
channel ids to optional sessions; `now` is `Utc::now()` made explicit. -/
def start_lp (store : Nat → Option LPInfo) (channel : Nat) (now : Int) :
    Nat → Option LPInfo :=
  fun c =>
    if c = channel then
      (store channel).map fun lp_info => { lp_info with started := some now }
    else
      store c

/-- C6: `start_lp` sets `started := Some now` on the session of channel
`channel` when one exists — leaving its playlist reference and track
sequence unchanged — is a no-op when none exists, and leaves the entry
of every other channel untouched. -/
theorem start_lp_spec (store : Nat → Option LPInfo) (channel : Nat) (now : Int) :
    (∀ lp, store channel = some lp →
      start_lp store channel now channel =
        some { playlist := lp.playlist, tracks := lp.tracks, started := some now }) ∧
    (store channel = none → start_lp store channel now channel = none) ∧
    (∀ c, c ≠ channel → start_lp store channel now c = store c) := by
  refine ⟨?_, ?_, ?_⟩
  · intro lp h
    simp [start_lp, h]
  · intro h
    simp [start_lp, h]
  · intro c hc
    simp [start_lp, hc]

/-- A sample two-channel store used to witness `start_lp_spec`. -/
def sample_store : Nat → Option LPInfo := fun c =>
  if c = 1 then
    some ⟨.MkPlaylistInfo "p" "pl" none, [⟨1, "a", none, 180⟩], none⟩
  else
    none

/-- C6 witness: starting channel 1 at time 5 on the sample store stamps
its session with `started = some 5` and leaves channel 2 empty. -/
theorem start_lp_spec_witness :
    start_lp sample_store 1 5 1 =
        some ⟨.MkPlaylistInfo "p" "pl" none, [⟨1, "a", none, 180⟩], some 5⟩ ∧
      start_lp sample_store 1 5 2 = none :=
  ⟨(start_lp_spec sample_store 1 5).1
      ⟨.MkPlaylistInfo "p" "pl" none, [⟨1, "a", none, 180⟩], none⟩ rfl,
   ((start_lp_spec sample_store 1 5).2.2 2 (by decide)).trans rfl⟩

end HumbleLedger
